import Mathlib

/-!
Shallow embedding of the l1 Lisp interpreter sources: the lexer state
machine (lexStart / lexAtom / lexInt and isBalanced) and the builtin
function registry (lisp/builtin.go).  Strings are modeled as lists of
characters.  The lexutil lexer-driver primitives (Next, Backup, Peek,
Accept, AcceptRun, Emit, Ignore, Errorf) live outside this repository;
their behavior is modeled from the specification of the lexer
(whitespace ignored, comments dropped through the newline, emitted
token text is the input slice between the start and pos markers, an
untokenizable character yields an error token carrying a message).
-/

namespace L1

/-- Token types, copied from the source enumeration: itemNumber,
itemAtom, itemLeftParen, itemRightParen, itemError.  The enumeration
has no reader-macro token kinds. -/
inductive ItemType where
  | itemNumber
  | itemAtom
  | itemLeftParen
  | itemRightParen
  | itemError
deriving DecidableEq, Repr

export ItemType (itemNumber itemAtom itemLeftParen itemRightParen itemError)

/-- Lexeme: a token type together with its text (lexutil.LexItem). -/
structure LexItem where
  typ : ItemType
  val : List Char
deriving DecidableEq, Repr

/-- isDigit from the source: a character between 0 and 9. -/
def isDigit (c : Char) : Bool := '0' ≤ c && c ≤ '9'

/-- isSpace from the source: space, tab, newline or carriage return. -/
def isSpace (c : Char) : Bool := c = ' ' || c = '\t' || c = '\n' || c = '\r'

/-- validAtomChars from the source (braces written with escapes). -/
def validAtomChars : List Char :=
  ("0123456789abcdefghijklmnopqrstuvwxyz" ++
   "ABCDEFGHIJKLMNOPQRSTUVWXYZ" ++
   "+*/-_!=<>?[]\x7b\x7d&$^").toList

/-- isAtomChar from the source: membership in validAtomChars. -/
def isAtomChar (c : Char) : Bool := validAtomChars.contains c

/-- ignoreComment from the source: consume runes until a newline
(consumed as well) or the end of the input. -/
def dropComment : List Char → List Char
  | [] => []
  | c :: rest => if c = '\n' then rest else dropComment rest

theorem dropComment_length_le (l : List Char) :
    (dropComment l).length ≤ l.length := by
  induction l with
  | nil => simp [dropComment]
  | cons c rest ih =>
    by_cases h : c = '\n'
    · simp [dropComment, h]
    · simp only [dropComment, if_neg h, List.length_cons]
      omega

theorem dropWhile_length_le {α : Type} (p : α → Bool) (l : List α) :
    (l.dropWhile p).length ≤ l.length := by
  induction l with
  | nil => simp
  | cons c rest ih =>
    by_cases h : p c
    · simp only [List.dropWhile_cons, h, if_pos, List.length_cons]
      omega
    · simp [List.dropWhile_cons, h]

/-- Message text of the error token emitted by Errorf in lexStart
(the %q quoting of the offending character is abbreviated to the bare
character). -/
def errVal (c : Char) : List Char :=
  "unexpected character ".toList ++ [c] ++ " in input".toList

/-- The lexer state machine from the source, written as one recursive
function over the remaining input: the top-level loop is lexStart; the
branch for a digit or sign is lexInt (accept an optional sign, then
require a digit run, otherwise fall through to lexAtom with the sign
as the first atom character); maximal atom runs are lexAtom.  In the
sign branches the emitted token text starts at the sign, so it is the
sign consed onto the run taken from the rest of the input. -/
def lexStart : List Char → List LexItem
  | [] => []
  | c :: rest =>
    if isSpace c then
      lexStart rest
    else if c = ';' then
      lexStart (dropComment rest)
    else if isDigit c || c = '-' || c = '+' then
      if c = '-' || c = '+' then
        if (match rest with | d :: _ => isDigit d | [] => false) then
          ⟨itemNumber, c :: rest.takeWhile isDigit⟩ ::
            lexStart (rest.dropWhile isDigit)
        else
          ⟨itemAtom, c :: rest.takeWhile isAtomChar⟩ ::
            lexStart (rest.dropWhile isAtomChar)
      else
        ⟨itemNumber, c :: rest.takeWhile isDigit⟩ ::
          lexStart (rest.dropWhile isDigit)
    else if c = '(' then
      ⟨itemLeftParen, [c]⟩ :: lexStart rest
    else if c = ')' then
      ⟨itemRightParen, [c]⟩ :: lexStart rest
    else if isAtomChar c then
      ⟨itemAtom, c :: rest.takeWhile isAtomChar⟩ ::
        lexStart (rest.dropWhile isAtomChar)
    else
      ⟨itemError, errVal c⟩ :: lexStart rest
termination_by l => l.length
decreasing_by
  all_goals simp only [List.length_cons]
  all_goals first
    | exact Nat.lt_succ_of_le (dropComment_length_le _)
    | exact Nat.lt_succ_of_le (dropWhile_length_le _ _)
    | exact Nat.lt_succ_self _

/-- Loop body of isBalanced from the source: a left paren raises the
level, a right paren lowers it, other tokens leave it unchanged. -/
def balanceStep (level : Int) (tok : LexItem) : Int :=
  match tok.typ with
  | itemLeftParen => level + 1
  | itemRightParen => level - 1
  | _ => level

/-- isBalanced from the source: fold the level counter over the tokens
starting from zero and test whether the final level is zero. -/
def isBalanced (tokens : List LexItem) : Bool :=
  tokens.foldl balanceStep (0 : Int) = 0

theorem foldl_balanceStep (ts : List LexItem) : ∀ level : Int,
    ts.foldl balanceStep level =
      level + (ts.countP (fun t => decide (t.typ = itemLeftParen)) : Int)
        - (ts.countP (fun t => decide (t.typ = itemRightParen)) : Int) := by
  induction ts with
  | nil => simp
  | cons t ts ih =>
    intro level
    rw [List.foldl_cons, ih]
    rcases h : t.typ <;>
      simp [balanceStep, h, List.countP_cons] <;> omega

/-- Claim C1 (counterexample): the token type enumeration has no
reader-macro kinds, and lexing each of the reader-macro characters
quote (code 39), backtick (code 96), tilde, and the two-character text
tilde-at yields error tokens, not dedicated reader-macro tokens. -/
theorem lexStart_reader_macro_chars_are_errors :
    lexStart [Char.ofNat 39] = [⟨itemError, errVal (Char.ofNat 39)⟩] ∧
    lexStart [Char.ofNat 96] = [⟨itemError, errVal (Char.ofNat 96)⟩] ∧
    lexStart ['~'] = [⟨itemError, errVal '~'⟩] ∧
    lexStart ['~', '@'] =
      [⟨itemError, errVal '~'⟩, ⟨itemError, errVal '@'⟩] := by
  refine ⟨?_, ?_, ?_, ?_⟩ <;> simp +decide [lexStart.eq_def]

/-- Claim C1 (amended): the lexer has no dedicated reader-macro
tokens; a quote, backtick or tilde character at a token boundary is
rejected by the default branch of lexStart, which emits an error token
for the character and continues lexing the rest of the input. -/
theorem lexStart_reader_macro_char_error (c : Char)
    (h : c = Char.ofNat 39 ∨ c = Char.ofNat 96 ∨ c = '~') :
    ∀ rest, lexStart (c :: rest) = ⟨itemError, errVal c⟩ :: lexStart rest := by
  intro rest
  rcases h with h | h | h <;> subst h <;> rw [lexStart.eq_def] <;> simp +decide

/-- Claim C1 (witness): instantiation of the amended claim at the
input tilde-at. -/
theorem lexStart_reader_macro_char_error_witness :
    lexStart ['~', '@'] = ⟨itemError, errVal '~'⟩ :: lexStart ['@'] :=
  lexStart_reader_macro_char_error '~' (Or.inr (Or.inr rfl)) ['@']

/-- Claim C2: after a sign character that is not followed by a digit,
the lexer falls through to atom lexing with the sign as the first atom
character; a sign followed by a digit produces a single number token
covering the sign and the digit run. -/
theorem lexStart_sign_fallthrough (c : Char) (h : c = '-' ∨ c = '+') :
    (lexStart [c] = [⟨itemAtom, [c]⟩]) ∧
    (∀ d rest, isDigit d = false →
      lexStart (c :: d :: rest) =
        ⟨itemAtom, c :: (d :: rest).takeWhile isAtomChar⟩ ::
          lexStart ((d :: rest).dropWhile isAtomChar)) ∧
    (∀ d rest, isDigit d = true →
      lexStart (c :: d :: rest) =
        ⟨itemNumber, c :: (d :: rest).takeWhile isDigit⟩ ::
          lexStart ((d :: rest).dropWhile isDigit)) := by
  refine ⟨?_, ?_, ?_⟩
  · rcases h with h | h <;> subst h <;> simp +decide [lexStart.eq_def]
  · intro d rest hd
    rcases h with h | h <;> subst h <;> rw [lexStart.eq_def] <;>
      simp +decide [hd, isDigit] <;> simpa [isDigit] using hd
  · intro d rest hd
    rcases h with h | h <;> subst h <;> rw [lexStart.eq_def] <;>
      simp +decide [hd, isDigit] <;> simpa [isDigit] using hd

/-- Claim C2 (witness): instantiation at the inputs consisting of a
lone minus sign, the text plus-f, and the text minus-5. -/
theorem lexStart_sign_fallthrough_witness :
    lexStart ['-'] = [⟨itemAtom, ['-']⟩] ∧
    lexStart ['+', 'f'] =
      ⟨itemAtom, '+' :: ['f'].takeWhile isAtomChar⟩ ::
        lexStart (['f'].dropWhile isAtomChar) ∧
    lexStart ['-', '5'] =
      ⟨itemNumber, '-' :: ['5'].takeWhile isDigit⟩ ::
        lexStart (['5'].dropWhile isDigit) :=
  ⟨(lexStart_sign_fallthrough '-' (Or.inl rfl)).1,
   (lexStart_sign_fallthrough '+' (Or.inr rfl)).2.1 'f' [] (by decide),
   (lexStart_sign_fallthrough '-' (Or.inl rfl)).2.2 '5' [] (by decide)⟩

/-- Claim C10: isBalanced returns true exactly when the number of
left-paren tokens equals the number of right-paren tokens, whatever
their order; in particular the lexed token stream of the text
right-paren-then-left-paren is reported as balanced. -/
theorem isBalanced_iff_paren_counts :
    (∀ ts : List LexItem, isBalanced ts = true ↔
      ts.countP (fun t => decide (t.typ = itemLeftParen)) =
        ts.countP (fun t => decide (t.typ = itemRightParen))) ∧
    isBalanced (lexStart [')', '(']) = true := by
  constructor
  · intro ts
    rw [isBalanced, foldl_balanceStep ts 0]
    simp only [decide_eq_true_eq]
    omega
  · simp +decide [lexStart.eq_def, isBalanced, List.foldl, balanceStep]

/-! ## Value model

The Sexpr interface of the lisp package.  The concrete value types
(Nil, Atom, Number, ConsCell) and their Equal and String methods live
in files of the repository that are not under src/; they are modeled
from the spec data model: Nil is the distinguished empty list, an atom
carries a name, a number is an arbitrary-precision signed integer, a
cons is an ordered pair, a builtin carries its name (Builtin.Equal in
src/lisp/builtin.go compares names), and lambdas are equal only by
identity (modeled by an identity number standing for the pointer). -/

inductive Sexpr where
  | Nil : Sexpr
  | Atom : List Char → Sexpr
  | Number : Int → Sexpr
  | ConsCell : Sexpr → Sexpr → Sexpr
  | Builtin : String → Sexpr
  | lambdaFn : Nat → Sexpr
deriving DecidableEq, Repr

/-- The canonical truthy constant: the atom named t. -/
def TrueV : Sexpr := Sexpr.Atom ['t']

/-- Modelled from the spec: decimal digit conversion of a natural
number, little-endian, as performed by the String method of the
arbitrary-precision integers backing Number.  The fuel argument makes
the recursion structural; fuel n is always enough for n. -/
def natDecAux (fuel : Nat) (n : Nat) : List Nat :=
  match fuel with
  | 0 => []
  | f + 1 => if n = 0 then [] else n % 10 :: natDecAux f (n / 10)

/-- Big-endian decimal digit list of a natural number (the digit list
of zero is the single digit zero). -/
def decDigitsBE (n : Nat) : List Nat :=
  if n = 0 then [0] else (natDecAux n n).reverse

/-- Modelled from the spec: the decimal text of a natural number. -/
def natDecimal (n : Nat) : List Char := (decDigitsBE n).map Nat.digitChar

/-- Modelled from the spec: the decimal text of an integer, with a
leading minus sign when negative (the String method of Number). -/
def intDecimal (i : Int) : List Char :=
  if i < 0 then '-' :: natDecimal i.natAbs else natDecimal i.natAbs

/-- Numeric value of a decimal digit character. -/
def digitVal (c : Char) : Nat := c.toNat - 48

/-- Modelled from the spec: parsing a run of decimal digit characters
into a natural number. -/
def parseNatDec (cs : List Char) : Nat :=
  cs.foldl (fun acc c => acc * 10 + digitVal c) 0

/-- Modelled from the spec: parsing decimal text with an optional sign
into an integer (the Num constructor applied to a string, backed by
big.Int SetString in base 10). -/
def parseIntDec (cs : List Char) : Int :=
  match cs with
  | [] => 0
  | c :: rest =>
    if c = '-' then -(parseNatDec rest : Int)
    else if c = '+' then (parseNatDec rest : Int)
    else (parseNatDec (c :: rest) : Int)

/-- Modelled from the spec: the String method of Sexpr values.  The
boolean flag selects between printing a value (false) and printing the
tail of a list already opened with a paren (true); a tail that is
neither Nil nor a cons prints in dotted form.  Lambda printing is
abbreviated (the model does not carry lambda sources). -/
def strAux : Bool → Sexpr → List Char
  | false, Sexpr.Nil => ['(', ')']
  | false, Sexpr.Atom s => s
  | false, Sexpr.Number i => intDecimal i
  | false, Sexpr.Builtin name => "<builtin: ".toList ++ name.toList ++ ['>']
  | false, Sexpr.lambdaFn _ => "<lambda>".toList
  | false, Sexpr.ConsCell a d => '(' :: (strAux false a ++ strAux true d)
  | true, Sexpr.Nil => [')']
  | true, Sexpr.ConsCell a d => ' ' :: (strAux false a ++ strAux true d)
  | true, x => ' ' :: '.' :: ' ' :: (strAux false x ++ [')'])
termination_by b x => (sizeOf x, if b then 1 else 0)
decreasing_by
  all_goals simp_wf
  all_goals first
    | exact Prod.Lex.left _ _ (by omega)
    | exact Prod.Lex.right _ (by omega)

/-- The String method of Sexpr values. -/
def Sexpr.str (x : Sexpr) : List Char := strAux false x

/-- Modelled from the spec: structural equality (the Equal methods of
the value types; Builtin.Equal comparing names is in src). -/
def Sexpr.EqualB : Sexpr → Sexpr → Bool
  | Sexpr.Nil, Sexpr.Nil => true
  | Sexpr.Atom a, Sexpr.Atom b => decide (a = b)
  | Sexpr.Number a, Sexpr.Number b => decide (a = b)
  | Sexpr.ConsCell a b, Sexpr.ConsCell c d => Sexpr.EqualB a c && Sexpr.EqualB b d
  | Sexpr.Builtin a, Sexpr.Builtin b => decide (a = b)
  | Sexpr.lambdaFn i, Sexpr.lambdaFn j => decide (i = j)
  | _, _ => false

theorem EqualB_iff_eq : ∀ x y : Sexpr, Sexpr.EqualB x y = true ↔ x = y := by
  intro x
  induction x with
  | Nil => intro y; cases y <;> simp [Sexpr.EqualB]
  | Atom a => intro y; cases y <;> simp [Sexpr.EqualB]
  | Number a => intro y; cases y <;> simp [Sexpr.EqualB]
  | Builtin a => intro y; cases y <;> simp [Sexpr.EqualB]
  | lambdaFn i => intro y; cases y <;> simp [Sexpr.EqualB]
  | ConsCell a b iha ihb =>
    intro y
    cases y <;> simp [Sexpr.EqualB, iha, ihb]

/-- Outcome of a builtin handler: an ordinary value, a Go error return
(nil value plus error), or a Go runtime panic that crashes the
interpreter (no value and no error are ever produced). -/
inductive Res where
  | ok : Sexpr → Res
  | err : String → Res
  | crash : String → Res
deriving DecidableEq, Repr

/-! ## Builtin registry (src/lisp/builtin.go)

Each definition below embeds the Fn handler of one entry of the
builtins map.  Go (value, nil) returns become Res.ok, (nil, error)
returns become Res.err, and runtime panics become Res.crash.  The %s
and %q interpolations of offending arguments in error messages keep
the printed argument but drop the surrounding quote characters. -/

/-- Summation loop of the + handler: sum starts at zero and every
argument must be a Number. -/
def sumLoop (sum : Int) : List Sexpr → Res
  | [] => Res.ok (Sexpr.Number sum)
  | Sexpr.Number n :: rest => sumLoop (sum + n) rest
  | x :: _ => Res.err ("expected number, got " ++ String.mk x.str)

/-- The + handler: zero arguments give the identity 0. -/
def plusFn (args : List Sexpr) : Res :=
  if args.isEmpty then Res.ok (Sexpr.Number 0) else sumLoop 0 args

/-- Subtraction loop of the - handler over the arguments after the
first: each is subtracted from the running value. -/
def subLoop (sum : Int) : List Sexpr → Res
  | [] => Res.ok (Sexpr.Number sum)
  | Sexpr.Number n :: rest => subLoop (sum - n) rest
  | x :: _ => Res.err ("expected number, got " ++ String.mk x.str)

/-- The - handler: no arguments is an error, a single number is
negated, otherwise the later arguments are subtracted from the
first. -/
def minusFn (args : List Sexpr) : Res :=
  match args with
  | [] => Res.err "missing argument"
  | first :: rest =>
    match first with
    | Sexpr.Number n =>
      match rest with
      | [] => Res.ok (Sexpr.Number (-n))
      | _ => subLoop n rest
    | x => Res.err ("expected number, got " ++ String.mk x.str)

/-- Product loop of the * handler: the product starts at one. -/
def prodLoop (prod : Int) : List Sexpr → Res
  | [] => Res.ok (Sexpr.Number prod)
  | Sexpr.Number n :: rest => prodLoop (prod * n) rest
  | x :: _ => Res.err ("expected number, got " ++ String.mk x.str)

/-- The * handler: zero arguments give the identity 1. -/
def timesFn (args : List Sexpr) : Res :=
  if args.isEmpty then Res.ok (Sexpr.Number 1) else prodLoop 1 args

/-- Division loop of the / handler: each divisor is first compared
with zero (division-by-zero error), then must be a Number, and the
quotient is the truncated-toward-zero division of big.Int. -/
def divLoop (quot : Int) : List Sexpr → Res
  | [] => Res.ok (Sexpr.Number quot)
  | arg :: rest =>
    if Sexpr.EqualB arg (Sexpr.Number 0) then Res.err "division by zero"
    else
      match arg with
      | Sexpr.Number n => divLoop (Int.tdiv quot n) rest
      | x => Res.err ("expected number, got " ++ String.mk x.str)

/-- The / handler: the first argument is the numerator. -/
def divFn (args : List Sexpr) : Res :=
  match args with
  | [] => Res.err "missing argument"
  | first :: rest =>
    match first with
    | Sexpr.Number n => divLoop n rest
    | x => Res.err ("expected number, got " ++ String.mk x.str)

/-- The rem handler: exactly two numbers, a zero second argument is an
error, and the remainder follows the truncated division of big.Int. -/
def remFn (args : List Sexpr) : Res :=
  match args with
  | [a, b] =>
    match a with
    | Sexpr.Number n1 =>
      match b with
      | Sexpr.Number n2 =>
        if Sexpr.EqualB (Sexpr.Number n2) (Sexpr.Number 0) then
          Res.err "division by zero"
        else Res.ok (Sexpr.Number (Int.tmod n1 n2))
      | x => Res.err ("expected number, got " ++ String.mk x.str)
    | x => Res.err ("expected number, got " ++ String.mk x.str)
  | _ => Res.err "rem requires two arguments"

/-- Comparison loop of compareMultipleNums: each further argument must
be a number and is compared with the previous one by cmp (current
first, previous second); the first failing pair returns Nil. -/
def compareLoop (cmp : Int → Int → Bool) (last : Int) : List Sexpr → Res
  | [] => Res.ok TrueV
  | Sexpr.Number n :: rest =>
    if cmp n last = false then Res.ok Sexpr.Nil else compareLoop cmp n rest
  | x :: _ => Res.err (String.mk x.str ++ " is not a number")

/-- compareMultipleNums from the source: at least one argument, the
first must be a number. -/
def compareMultipleNums (cmp : Int → Int → Bool) (args : List Sexpr) : Res :=
  match args with
  | [] => Res.err "missing argument"
  | first :: rest =>
    match first with
    | Sexpr.Number n => compareLoop cmp n rest
    | x => Res.err (String.mk x.str ++ " is not a number")

/-- The < handler: the previous value must be less than the current. -/
def ltFn (args : List Sexpr) : Res :=
  compareMultipleNums (fun a b => decide (b < a)) args

/-- The <= handler. -/
def leFn (args : List Sexpr) : Res :=
  compareMultipleNums (fun a b => decide (b ≤ a)) args

/-- The > handler. -/
def gtFn (args : List Sexpr) : Res :=
  compareMultipleNums (fun a b => decide (b > a)) args

/-- The >= handler. -/
def geFn (args : List Sexpr) : Res :=
  compareMultipleNums (fun a b => decide (b ≥ a)) args

/-- Loop of the = handler: every argument after the first is compared
with the first by Equal; the first mismatch returns Nil. -/
def eqLoop (x : Sexpr) : List Sexpr → Sexpr
  | [] => TrueV
  | y :: rest => if Sexpr.EqualB x y = false then Sexpr.Nil else eqLoop x rest

/-- The = handler: at least one argument. -/
def eqFn (args : List Sexpr) : Res :=
  match args with
  | [] => Res.err "missing argument"
  | x :: rest => Res.ok (eqLoop x rest)

/-- The car handler: one argument that must be a list (Nil counts);
car of the empty list is Nil. -/
def carFn (args : List Sexpr) : Res :=
  match args with
  | [x] =>
    match x with
    | Sexpr.Nil => Res.ok Sexpr.Nil
    | Sexpr.ConsCell a _ => Res.ok a
    | _ => Res.err (String.mk x.str ++ " is not a list")
  | _ => Res.err "missing argument"

/-- The cdr handler: one argument that must be a list (Nil counts);
cdr of the empty list is Nil. -/
def cdrFn (args : List Sexpr) : Res :=
  match args with
  | [x] =>
    match x with
    | Sexpr.Nil => Res.ok Sexpr.Nil
    | Sexpr.ConsCell _ d => Res.ok d
    | _ => Res.err (String.mk x.str ++ " is not a list")
  | _ => Res.err "missing argument"

/-- The cons handler: exactly two arguments, paired with Cons. -/
def consFn (args : List Sexpr) : Res :=
  match args with
  | [a, b] => Res.ok (Sexpr.ConsCell a b)
  | _ => Res.err "missing argument"

/-- Counting loop of the len handler: the source walks the chain with
the unchecked type assertion cdr.(*ConsCell), which panics when the
chain ends in anything other than a cons cell or Nil. -/
def lenLoop : Sexpr → Option Nat
  | Sexpr.Nil => some 0
  | Sexpr.ConsCell _ d => (lenLoop d).map (· + 1)
  | _ => none

/-- The len handler: one argument that must be a list (Nil counts);
an improper chain crashes in the counting loop. -/
def lenFn (args : List Sexpr) : Res :=
  match args with
  | [x] =>
    match x with
    | Sexpr.Nil => Res.ok (Sexpr.Number 0)
    | Sexpr.ConsCell a d =>
      match lenLoop (Sexpr.ConsCell a d) with
      | some k => Res.ok (Sexpr.Number k)
      | none => Res.crash "interface conversion: Sexpr is not *ConsCell"
    | _ => Res.err (String.mk x.str ++ " is not a list")
  | _ => Res.err "len expects a single argument"

/-- listOfChars from the source: a list of single-character atoms. -/
def listOfChars : List Char → Sexpr
  | [] => Sexpr.Nil
  | c :: rest => Sexpr.ConsCell (Sexpr.Atom [c]) (listOfChars rest)

/-- listOfNums from the source: a list of single-digit numbers from
decimal text; when the text starts with a minus sign the first element
is the negated first digit (the two-character slice is parsed), and a
lone minus sign is an error. -/
def listOfNums : List Char → Except String Sexpr
  | [] => Except.ok Sexpr.Nil
  | c :: rest =>
    if c = '-' then
      match rest with
      | [] => Except.error "unexpected end of input"
      | d :: rest2 => do
        let lon ← listOfNums rest2
        return Sexpr.ConsCell (Sexpr.Number (parseIntDec [c, d])) lon
    else do
      let lon ← listOfNums rest
      return Sexpr.ConsCell (Sexpr.Number (parseIntDec [c])) lon

/-- The split handler: an atom splits into single-character atoms, a
number into single-digit numbers over its printed decimal form. -/
def splitFn (args : List Sexpr) : Res :=
  match args with
  | [x] =>
    match x with
    | Sexpr.Atom s => Res.ok (listOfChars s)
    | Sexpr.Number n =>
      match listOfNums (intDecimal n) with
      | Except.ok l => Res.ok l
      | Except.error e => Res.err e
    | _ => Res.err "split expects an atom or a number"
  | _ => Res.err "split expects a single argument"

/-- Walk of the fuse handler over a cons chain, concatenating the
printed forms of the cars; a chain ending in anything other than a
cons cell or Nil hits the unchecked type assertion cdr.(*ConsCell)
and panics. -/
def fuseWalk : Sexpr → Option (List Char)
  | Sexpr.Nil => some []
  | Sexpr.ConsCell a d => (fuseWalk d).map (fun s => a.str ++ s)
  | _ => none

/-- The fuse handler: one argument; Nil fuses to Nil; a cons chain is
concatenated, and the result parses as a Number when its first
character is a digit and as an Atom otherwise. -/
def fuseFn (args : List Sexpr) : Res :=
  match args with
  | [x] =>
    match x with
    | Sexpr.Nil => Res.ok Sexpr.Nil
    | Sexpr.ConsCell a d =>
      match fuseWalk (Sexpr.ConsCell a d) with
      | none => Res.crash "interface conversion: Sexpr is not *ConsCell"
      | some str =>
        if (match str with | c :: _ => isDigit c | [] => false) then
          Res.ok (Sexpr.Number (parseIntDec str))
        else Res.ok (Sexpr.Atom str)
    | _ => Res.err "fuse expects a list"
  | _ => Res.err "fuse expects a single argument"

/-- Composition evaluated by the round-trip scenario: split, then fuse
the resulting list. -/
def fuseSplit (x : Sexpr) : Res :=
  match splitFn [x] with
  | Res.ok l => fuseFn [l]
  | r => r

/-! ## Arithmetic and comparison claims -/

theorem sumLoop_map (ns : List Int) : ∀ acc : Int,
    sumLoop acc (ns.map Sexpr.Number) = Res.ok (Sexpr.Number (acc + ns.sum)) := by
  induction ns with
  | nil => simp [sumLoop]
  | cons n ns ih =>
    intro acc
    simp [sumLoop, ih (acc + n)]
    ring_nf

theorem prodLoop_map (ns : List Int) : ∀ acc : Int,
    prodLoop acc (ns.map Sexpr.Number) = Res.ok (Sexpr.Number (acc * ns.prod)) := by
  induction ns with
  | nil => simp [prodLoop]
  | cons n ns ih =>
    intro acc
    simp [prodLoop, ih (acc * n)]
    ring_nf

theorem subLoop_map (ns : List Int) : ∀ acc : Int,
    subLoop acc (ns.map Sexpr.Number) = Res.ok (Sexpr.Number (acc - ns.sum)) := by
  induction ns with
  | nil => simp [subLoop]
  | cons n ns ih =>
    intro acc
    simp [subLoop, ih (acc - n)]
    ring_nf

/-- Claim C4: the builtin + applied to no arguments returns 0 and in
general sums its numeric arguments; * applied to no arguments returns
1 and in general multiplies; - negates a single number and otherwise
subtracts all later arguments from the first. -/
theorem arith_identities_and_folds :
    plusFn [] = Res.ok (Sexpr.Number 0) ∧
    timesFn [] = Res.ok (Sexpr.Number 1) ∧
    (∀ n : Int, minusFn [Sexpr.Number n] = Res.ok (Sexpr.Number (-n))) ∧
    (∀ ns : List Int, plusFn (ns.map Sexpr.Number) = Res.ok (Sexpr.Number ns.sum)) ∧
    (∀ ns : List Int, timesFn (ns.map Sexpr.Number) = Res.ok (Sexpr.Number ns.prod)) ∧
    (∀ (n m : Int) (ms : List Int),
      minusFn (Sexpr.Number n :: Sexpr.Number m :: ms.map Sexpr.Number) =
        Res.ok (Sexpr.Number (n - (m :: ms).sum))) := by
  refine ⟨rfl, rfl, fun n => rfl, ?_, ?_, ?_⟩
  · intro ns
    cases ns with
    | nil => simp [plusFn]
    | cons n ns => simpa [plusFn] using sumLoop_map (n :: ns) 0
  · intro ns
    cases ns with
    | nil => simp [timesFn]
    | cons n ns => simpa [timesFn] using prodLoop_map (n :: ns) 1
  · intro n m ms
    have h := subLoop_map (m :: ms) n
    simp only [minusFn, List.map_cons] at h ⊢
    exact h

theorem divLoop_map (ns : List Int) : ∀ q : Int,
    divLoop q (ns.map Sexpr.Number) =
      if 0 ∈ ns then Res.err "division by zero"
      else Res.ok (Sexpr.Number (ns.foldl Int.tdiv q)) := by
  induction ns with
  | nil => simp [divLoop]
  | cons n ns ih =>
    intro q
    by_cases hn : n = 0
    · subst hn
      simp [divLoop, Sexpr.EqualB]
    · have hn' : ¬(0 = n) := fun h => hn h.symm
      simp [divLoop, Sexpr.EqualB, hn, hn', ih (Int.tdiv q n)]

/-- Claim C5: the builtin / raises a division-by-zero error whenever
any divisor argument equals 0 and otherwise folds the truncated
quotient over the divisors; rem raises the same error whenever its
second argument equals 0 and otherwise returns the truncated
remainder.  On the error paths no value is produced. -/
theorem div_rem_zero_divisor_errors :
    (∀ (n : Int) (ns : List Int), 0 ∈ ns →
      divFn ((n :: ns).map Sexpr.Number) = Res.err "division by zero") ∧
    (∀ (n : Int) (ns : List Int), 0 ∉ ns →
      divFn ((n :: ns).map Sexpr.Number) =
        Res.ok (Sexpr.Number (ns.foldl Int.tdiv n))) ∧
    (∀ a : Int, remFn [Sexpr.Number a, Sexpr.Number 0] = Res.err "division by zero") ∧
    (∀ a b : Int, b ≠ 0 →
      remFn [Sexpr.Number a, Sexpr.Number b] = Res.ok (Sexpr.Number (Int.tmod a b))) := by
  refine ⟨?_, ?_, ?_, ?_⟩
  · intro n ns h
    simp [divFn, divLoop_map ns n, h]
  · intro n ns h
    simp [divFn, divLoop_map ns n, h]
  · intro a
    simp [remFn, Sexpr.EqualB]
  · intro a b hb
    simp [remFn, Sexpr.EqualB, hb]

/-- Claim C5 (witness): instantiation at (/ 6 0) and (rem 7 2). -/
theorem div_rem_zero_divisor_errors_witness :
    divFn [Sexpr.Number 6, Sexpr.Number 0] = Res.err "division by zero" ∧
    remFn [Sexpr.Number 7, Sexpr.Number 2] = Res.ok (Sexpr.Number 1) := by
  constructor
  · exact div_rem_zero_divisor_errors.1 6 [0] (by simp)
  · have h := div_rem_zero_divisor_errors.2.2.2 7 2 (by decide)
    simpa using h

theorem compareLoop_chain (r : Int → Int → Prop) [DecidableRel r]
    (ns : List Int) : ∀ last : Int,
    compareLoop (fun a b => decide (r b a)) last (ns.map Sexpr.Number) =
      Res.ok (if List.Chain r last ns then TrueV else Sexpr.Nil) := by
  induction ns with
  | nil => simp [compareLoop]
  | cons n ns ih =>
    intro last
    by_cases hr : r last n
    · simp [compareLoop, hr, ih n, List.chain_cons]
    · simp [compareLoop, hr, List.chain_cons]

theorem chain_eq_iff_all (x : Sexpr) (xs : List Sexpr) :
    List.Chain (· = ·) x xs ↔ ∀ y ∈ xs, x = y := by
  induction xs generalizing x with
  | nil => simp
  | cons y ys ih =>
    rw [List.chain_cons, ih y]
    constructor
    · rintro ⟨rfl, h⟩ z hz
      rcases List.mem_cons.mp hz with rfl | hz
      · rfl
      · exact h z hz
    · intro h
      refine ⟨h y (List.mem_cons_self y ys), fun z hz => ?_⟩
      rw [← h y (List.mem_cons_self y ys)]
      exact h z (List.mem_cons_of_mem y hz)

theorem eqLoop_all (x : Sexpr) (xs : List Sexpr) :
    eqLoop x xs = if ∀ y ∈ xs, x = y then TrueV else Sexpr.Nil := by
  induction xs with
  | nil => simp [eqLoop]
  | cons y ys ih =>
    by_cases hxy : x = y
    · subst hxy
      simp [eqLoop, EqualB_iff_eq x x |>.mpr rfl, ih]
    · have : Sexpr.EqualB x y = false := by
        rcases h : Sexpr.EqualB x y with _ | _
        · rfl
        · exact absurd ((EqualB_iff_eq x y).mp h) hxy
      simp [eqLoop, this, hxy]

/-- Claim C6: the comparison builtins are n-ary and test the order
relation between every consecutive pair of the argument chain,
returning t exactly when every pair satisfies it and the empty list
otherwise; the chain over a single argument is trivially satisfied, so
each returns t there. -/
theorem comparison_builtins_chain :
    (∀ (n : Int) (ns : List Int),
      ltFn ((n :: ns).map Sexpr.Number) =
        Res.ok (if List.Chain (· < ·) n ns then TrueV else Sexpr.Nil) ∧
      leFn ((n :: ns).map Sexpr.Number) =
        Res.ok (if List.Chain (· ≤ ·) n ns then TrueV else Sexpr.Nil) ∧
      gtFn ((n :: ns).map Sexpr.Number) =
        Res.ok (if List.Chain (· > ·) n ns then TrueV else Sexpr.Nil) ∧
      geFn ((n :: ns).map Sexpr.Number) =
        Res.ok (if List.Chain (· ≥ ·) n ns then TrueV else Sexpr.Nil)) ∧
    (∀ (x : Sexpr) (xs : List Sexpr),
      eqFn (x :: xs) =
        Res.ok (if List.Chain (· = ·) x xs then TrueV else Sexpr.Nil)) := by
  constructor
  · intro n ns
    refine ⟨?_, ?_, ?_, ?_⟩ <;>
      simpa [ltFn, leFn, gtFn, geFn, compareMultipleNums] using
        compareLoop_chain _ ns n
  · intro x xs
    rw [eqFn, eqLoop_all]
    congr 1
    rw [if_congr (chain_eq_iff_all x xs).symm rfl rfl]

/-- Claim C7: car of (cons a b) is a and cdr of (cons a b) is b for
all values, and car and cdr of the empty list are both Nil. -/
theorem car_cdr_cons_laws :
    ∀ a b : Sexpr,
      consFn [a, b] = Res.ok (Sexpr.ConsCell a b) ∧
      carFn [Sexpr.ConsCell a b] = Res.ok a ∧
      cdrFn [Sexpr.ConsCell a b] = Res.ok b ∧
      carFn [Sexpr.Nil] = Res.ok Sexpr.Nil ∧
      cdrFn [Sexpr.Nil] = Res.ok Sexpr.Nil :=
  fun _ _ => ⟨rfl, rfl, rfl, rfl, rfl⟩

/-- Claim C8: the equality exposed by the = builtin is reflexive and
symmetric. -/
theorem eq_builtin_refl_symm :
    ∀ x y : Sexpr, eqFn [x, x] = Res.ok TrueV ∧ eqFn [x, y] = eqFn [y, x] := by
  intro x y
  constructor
  · simp [eqFn, eqLoop_all]
  · rw [eqFn, eqFn, eqLoop_all, eqLoop_all]
    by_cases h : x = y <;> simp [h, eq_comm]

/-- Claim C9: applied to a dotted pair, len does not return an error
value; the counting loop hits the unchecked type assertion on the cdr
and crashes the interpreter. -/
theorem len_improper_list_crashes :
    lenFn [Sexpr.ConsCell (Sexpr.Number 1) (Sexpr.Number 2)] =
      Res.crash "interface conversion: Sexpr is not *ConsCell" ∧
    (∀ msg, lenFn [Sexpr.ConsCell (Sexpr.Number 1) (Sexpr.Number 2)] ≠ Res.err msg) ∧
    (∀ v, lenFn [Sexpr.ConsCell (Sexpr.Number 1) (Sexpr.Number 2)] ≠ Res.ok v) := by
  refine ⟨rfl, ?_, ?_⟩ <;> intro z <;> simp [lenFn, lenLoop]

/-! ## Fuse and split round trip -/

/-- Little-endian valuation of a decimal digit list (proof helper). -/
def ofDigitsLE : List Nat → Nat
  | [] => 0
  | d :: ds => d + 10 * ofDigitsLE ds

/-- Proper list of single-digit numbers over a digit list (the shape
of the output of listOfNums on a nonnegative decimal text). -/
def numChain : List Nat → Sexpr
  | [] => Sexpr.Nil
  | b :: bs => Sexpr.ConsCell (Sexpr.Number b) (numChain bs)

theorem natDecAux_digits_lt (fuel : Nat) : ∀ n, ∀ d ∈ natDecAux fuel n, d < 10 := by
  induction fuel with
  | zero => intro n d hd; simp [natDecAux] at hd
  | succ f ih =>
    intro n d hd
    by_cases hn : n = 0
    · simp [natDecAux, hn] at hd
    · rw [natDecAux, if_neg hn] at hd
      rcases List.mem_cons.mp hd with rfl | hd
      · omega
      · exact ih (n / 10) d hd

theorem decDigitsBE_digits_lt (n : Nat) : ∀ d ∈ decDigitsBE n, d < 10 := by
  intro d hd
  by_cases hn : n = 0
  · simp [decDigitsBE, hn] at hd
    omega
  · rw [decDigitsBE, if_neg hn, List.mem_reverse] at hd
    exact natDecAux_digits_lt n n d hd

theorem decDigitsBE_ne_nil (n : Nat) : decDigitsBE n ≠ [] := by
  by_cases hn : n = 0
  · simp [decDigitsBE, hn]
  · rw [decDigitsBE, if_neg hn]
    have : natDecAux n n ≠ [] := by
      cases n with
      | zero => exact absurd rfl hn
      | succ m => rw [natDecAux, if_neg hn]; exact List.cons_ne_nil _ _
    simpa using this

theorem ofDigitsLE_natDecAux (fuel : Nat) : ∀ n, n ≤ fuel →
    ofDigitsLE (natDecAux fuel n) = n := by
  induction fuel with
  | zero => intro n h; interval_cases n; simp [natDecAux, ofDigitsLE]
  | succ f ih =>
    intro n h
    by_cases hn : n = 0
    · simp [natDecAux, hn, ofDigitsLE]
    · rw [natDecAux, if_neg hn, ofDigitsLE, ih (n / 10) (by omega)]
      omega

theorem digitVal_digitChar : ∀ d, d < 10 → digitVal (Nat.digitChar d) = d := by
  decide

theorem isDigit_digitChar : ∀ d, d < 10 → isDigit (Nat.digitChar d) = true := by
  decide

theorem digitChar_not_sign : ∀ d, d < 10 →
    Nat.digitChar d ≠ '-' ∧ Nat.digitChar d ≠ '+' := by
  decide

theorem parseNat_foldl_rev (ds : List Nat) (h : ∀ d ∈ ds, d < 10) :
    ∀ acc : Nat,
      (ds.reverse.map Nat.digitChar).foldl (fun acc c => acc * 10 + digitVal c) acc =
        acc * 10 ^ ds.length + ofDigitsLE ds := by
  induction ds with
  | nil => intro acc; simp [ofDigitsLE]
  | cons d ds ih =>
    intro acc
    have hd : d < 10 := h d (List.mem_cons_self d ds)
    have hds : ∀ e ∈ ds, e < 10 := fun e he => h e (List.mem_cons_of_mem d he)
    rw [List.reverse_cons, List.map_append, List.foldl_append, ih hds acc]
    simp [ofDigitsLE, digitVal_digitChar d hd]
    ring

theorem parseNatDec_natDecimal (m : Nat) : parseNatDec (natDecimal m) = m := by
  by_cases hm : m = 0
  · subst hm; decide
  · rw [natDecimal, decDigitsBE, if_neg hm, parseNatDec,
      parseNat_foldl_rev (natDecAux m m) (natDecAux_digits_lt m m) 0,
      ofDigitsLE_natDecAux m m (le_refl m)]
    omega

theorem parseIntDec_natDecimal (m : Nat) : parseIntDec (natDecimal m) = (m : Int) := by
  obtain ⟨b, bs, hbs⟩ := List.exists_cons_of_ne_nil (decDigitsBE_ne_nil m)
  have hb : b < 10 := decDigitsBE_digits_lt m b (by rw [hbs]; exact List.mem_cons_self b bs)
  have hsign := digitChar_not_sign b hb
  have hnd : natDecimal m = Nat.digitChar b :: bs.map Nat.digitChar := by
    rw [natDecimal, hbs, List.map_cons]
  rw [hnd]
  simp only [parseIntDec, if_neg hsign.1, if_neg hsign.2]
  have : Nat.digitChar b :: bs.map Nat.digitChar = natDecimal m := hnd.symm
  rw [this, parseNatDec_natDecimal m]

theorem listOfNums_digits (bs : List Nat) (h : ∀ d ∈ bs, d < 10) :
    listOfNums (bs.map Nat.digitChar) = Except.ok (numChain bs) := by
  induction bs with
  | nil => simp [listOfNums, numChain]
  | cons b bs ih =>
    have hb : b < 10 := h b (List.mem_cons_self b bs)
    have hbs : ∀ d ∈ bs, d < 10 := fun d hd => h d (List.mem_cons_of_mem b hd)
    have hsign := digitChar_not_sign b hb
    have hparse : parseIntDec [Nat.digitChar b] = (b : Int) := by
      simp only [parseIntDec, if_neg hsign.1, if_neg hsign.2]
      simp [parseNatDec, digitVal_digitChar b hb]
    rw [List.map_cons, listOfNums.eq_def]
    simp only [if_neg hsign.1]
    rw [ih hbs]
    simp [numChain, hparse]

theorem strAux_Number (i : Int) : strAux false (Sexpr.Number i) = intDecimal i := by
  rw [strAux.eq_def]

theorem str_Number (i : Int) : (Sexpr.Number i).str = intDecimal i :=
  strAux_Number i

theorem intDecimal_digit : ∀ b : Nat, b < 10 →
    intDecimal (b : Int) = [Nat.digitChar b] := by
  decide

theorem fuseWalk_numChain (bs : List Nat) (h : ∀ d ∈ bs, d < 10) :
    fuseWalk (numChain bs) = some (bs.map Nat.digitChar) := by
  induction bs with
  | nil => simp [numChain, fuseWalk]
  | cons b bs ih =>
    have hb : b < 10 := h b (List.mem_cons_self b bs)
    have hbs : ∀ d ∈ bs, d < 10 := fun d hd => h d (List.mem_cons_of_mem b hd)
    rw [numChain, fuseWalk, ih hbs]
    simp [str_Number, intDecimal_digit b hb]

/-- Claim C3 (counterexample): the round trip fails on the negative
number -1: split yields the one-element list (-1), fuse concatenates
to the text -1 whose first character is not a digit, so fuse returns
the Atom named -1 rather than the Number -1. -/
theorem fuse_split_negative_counterexample :
    fuseSplit (Sexpr.Number (-1)) = Res.ok (Sexpr.Atom ['-', '1']) ∧
    fuseSplit (Sexpr.Number (-1)) ≠ Res.ok (Sexpr.Number (-1)) := by
  have hstr : (Sexpr.Number (-1)).str = ['-', '1'] := by
    rw [str_Number]; decide
  have hsplit : splitFn [Sexpr.Number (-1)] =
      Res.ok (Sexpr.ConsCell (Sexpr.Number (-1)) Sexpr.Nil) := by decide
  have hwalk : fuseWalk (Sexpr.ConsCell (Sexpr.Number (-1)) Sexpr.Nil) =
      some ['-', '1'] := by
    simp [fuseWalk, hstr]
  have hfuse : fuseFn [Sexpr.ConsCell (Sexpr.Number (-1)) Sexpr.Nil] =
      Res.ok (Sexpr.Atom ['-', '1']) := by
    simp only [fuseFn, hwalk]
    simp +decide [isDigit]
  have h : fuseSplit (Sexpr.Number (-1)) = Res.ok (Sexpr.Atom ['-', '1']) := by
    simp only [fuseSplit, hsplit, hfuse]
  exact ⟨h, by rw [h]; simp⟩

/-- Claim C3 (amended): for every nonnegative Number n, fuse applied
to split of n returns the Number n itself; for negative numbers the
concatenated text starts with the minus sign, so fuse returns an Atom
instead (see the counterexample). -/
theorem fuse_split_roundtrip_nonneg (n : Int) (h : 0 ≤ n) :
    fuseSplit (Sexpr.Number n) = Res.ok (Sexpr.Number n) := by
  have hnm : (n.natAbs : Int) = n := Int.natAbs_of_nonneg h
  have hdec : intDecimal n = natDecimal n.natAbs := by
    rw [intDecimal, if_neg (by omega)]
  have hlt := decDigitsBE_digits_lt n.natAbs
  obtain ⟨b, bs, hbs⟩ := List.exists_cons_of_ne_nil (decDigitsBE_ne_nil n.natAbs)
  have hb : b < 10 := hlt b (by rw [hbs]; exact List.mem_cons_self b bs)
  have hsplit : splitFn [Sexpr.Number n] =
      Res.ok (numChain (decDigitsBE n.natAbs)) := by
    simp only [splitFn, hdec, natDecimal]
    rw [listOfNums_digits (decDigitsBE n.natAbs) hlt]
  have hwalk := fuseWalk_numChain (decDigitsBE n.natAbs) hlt
  rw [hbs] at hwalk
  have hparse : parseIntDec ((b :: bs).map Nat.digitChar) = n := by
    have : (b :: bs).map Nat.digitChar = natDecimal n.natAbs := by
      rw [natDecimal, hbs]
    rw [this, parseIntDec_natDecimal, hnm]
  have hfuse : fuseFn [numChain (decDigitsBE n.natAbs)] =
      Res.ok (Sexpr.Number n) := by
    rw [hbs]
    simp only [numChain, fuseFn]
    rw [show Sexpr.ConsCell (Sexpr.Number (b : Int)) (numChain bs) =
        numChain (b :: bs) from rfl, hwalk]
    simp only [List.map_cons]
    rw [if_pos (by simpa using isDigit_digitChar b hb)]
    rw [show Nat.digitChar b :: bs.map Nat.digitChar =
        (b :: bs).map Nat.digitChar from rfl, hparse]
  rw [fuseSplit, hsplit]
  exact hfuse

/-- Claim C3 (witness): instantiation of the amended round trip at the
number from the specification scenario. -/
theorem fuse_split_roundtrip_nonneg_witness :
    (0 : Int) ≤ 1295807125987 ∧
    fuseSplit (Sexpr.Number 1295807125987) =
      Res.ok (Sexpr.Number 1295807125987) :=
  ⟨by decide, fuse_split_roundtrip_nonneg 1295807125987 (by decide)⟩

end L1
